import Mathlib

/-!
Verification of the 2D Ising Metropolis Monte Carlo engine
(`helper.py`, `ising_model.py`, `simulate.py`).

Conventions of the shallow embedding:
* A lattice state is a function `Fin L → Fin L → ℚ`; the Python arrays hold
  small integers (spins) and the observables are rational arithmetic, so `ℚ`
  models the numeric values exactly (floating point is idealised as exact
  rationals, and `np.exp` as `Real.exp`).
* Python's nonnegative modulus `(i+1) % L` and `(i-1) % L` on indices
  `0 ≤ i < L` is exactly `Fin L` addition/subtraction.
* Randomness is modelled by explicit oracle streams: the `randint` draws of a
  sweep become a stream `sites : ℕ → Fin L × Fin L` (trial `t` uses `sites t`),
  the `np.random.rand()` draws become `unif : ℕ → ℝ`, and the `randint(2)`
  bits of the initial state become `bits : ℕ → Fin 2` (row-major order).
* Fallible Python behaviour (attribute lookup, division by zero) is embedded
  with `Except PyErr`.
-/

namespace Ising

/-- A spin configuration on the L×L periodic lattice (numpy 2-d array). -/
abbrev SpinState (L : ℕ) := Fin L → Fin L → ℚ

/-- The four-neighbour sum
`state[(i+1)%L, j] + state[i,(j+1)%L] + state[(i-1)%L, j] + state[i,(j-1)%L]`
used by both `energy` and `mc_step_metropolis` in `src/helper.py`. -/
def nnSum (L : ℕ) [NeZero L] (state : SpinState L) (i j : Fin L) : ℚ :=
  state (i + 1) j + state i (j + 1) + state (i - 1) j + state i (j - 1)

/-- The accumulated double loop of `energy` in `src/helper.py`
(`for i in range(L): for j in range(L): energy += s * nn_sum`). -/
def ovSum (L : ℕ) [NeZero L] (state : SpinState L) : ℚ :=
  ∑ i : Fin L, ∑ j : Fin L, state i j * nnSum L state i j

/-- `energy` from `src/helper.py` (identical to `_energy` in
`src/ising_model.py`): returns `-J*(energy/4)` where `energy` is the
overcounting double loop `ovSum`. -/
def energy (L : ℕ) [NeZero L] (state : SpinState L) (J : ℚ) : ℚ :=
  -J * (ovSum L state / 4)

/-- The each-edge-once nearest-neighbour sum, written from the words of the
specification ("the each-edge-once sum Σ over nearest-neighbour pairs of
s_i·s_j"): every undirected lattice edge appears exactly once, as the edge
from a site to its east neighbour or to its south neighbour. -/
def edgeSum (L : ℕ) [NeZero L] (state : SpinState L) : ℚ :=
  ∑ i : Fin L, ∑ j : Fin L, state i j * (state (i + 1) j + state i (j + 1))

/-- The sum of `state p * state (p + d)` over all sites `p`, for a fixed
lattice displacement `d`; `ovSum` is the sum of `pairSum` over the four unit
displacements (proof device for relating the two energy conventions). -/
def pairSum (L : ℕ) [NeZero L] (st : SpinState L) (d : Fin L × Fin L) : ℚ :=
  ∑ p : Fin L × Fin L, st p.1 p.2 * st (p.1 + d.1) (p.2 + d.2)

/-- The in-place single-cell update `state[a, b] = -s` of
`mc_step_metropolis`, as a functional update. -/
def flipAt (L : ℕ) (state : SpinState L) (a b : Fin L) : SpinState L :=
  fun i j => if i = a ∧ j = b then -(state a b) else state i j

/-- The all-up configuration (every spin `+1`). -/
def allUp (L : ℕ) : SpinState L := fun _ _ => 1

/-- Every cell holds exactly `+1` or `-1`. -/
def IsSpinState (L : ℕ) (state : SpinState L) : Prop :=
  ∀ i j, state i j = 1 ∨ state i j = -1

instance (L : ℕ) (state : SpinState L) : Decidable (IsSpinState L state) := by
  unfold IsSpinState; infer_instance

open Classical in
/-- One trial of the `for _ in range(N)` loop of `mc_step_metropolis` in
`src/helper.py`: at site `(a, b) = ab`, with `s = state[a, b]` and `nn_sum`
the four-neighbour sum, `cost = 2*J*s*nn_sum`; if `cost < 0` the spin is
flipped; elif the uniform draw `r` satisfies `r <= np.exp(-cost*(1/T))` the
spin is flipped; else the state is unchanged. -/
noncomputable def mcTrial (L : ℕ) [NeZero L] (T J : ℚ) (ab : Fin L × Fin L)
    (r : ℝ) (state : SpinState L) : SpinState L :=
  let s := state ab.1 ab.2
  let cost := 2 * J * s * nnSum L state ab.1 ab.2
  if cost < 0 then flipAt L state ab.1 ab.2
  else if r ≤ Real.exp ((-cost * (1 / T) : ℚ) : ℝ) then flipAt L state ab.1 ab.2
  else state

/-- Runs `k` further trials of the sweep, the next one being trial number
`t` (which consumes `sites t` and, when needed, `unif t`). -/
noncomputable def mcSweepAux (L : ℕ) [NeZero L] (T J : ℚ)
    (sites : ℕ → Fin L × Fin L) (unif : ℕ → ℝ) :
    ℕ → ℕ → SpinState L → SpinState L
  | 0, _, st => st
  | Nat.succ k, t, st =>
      mcSweepAux L T J sites unif k (t + 1) (mcTrial L T J (sites t) (unif t) st)

/-- `mc_step_metropolis` from `src/helper.py`: `N` trials in order,
trial `t` drawing its site and its uniform number from the streams. -/
noncomputable def mc_step_metropolis (L : ℕ) [NeZero L] (T J : ℚ) (N : ℕ)
    (sites : ℕ → Fin L × Fin L) (unif : ℕ → ℝ) (state : SpinState L) :
    SpinState L :=
  mcSweepAux L T J sites unif N 0 state

open Classical in
/-- One single-site trial written from the words of the claim: compute
`cost = 2*J*s*(four-neighbour sum)`, flip unconditionally when `cost < 0`,
otherwise flip exactly when the drawn uniform number `r` satisfies
`r ≤ exp (-cost / T)`, and leave the spin unchanged otherwise. -/
noncomputable def claimTrial (L : ℕ) [NeZero L] (T J : ℚ) (ab : Fin L × Fin L)
    (r : ℝ) (state : SpinState L) : SpinState L :=
  let s := state ab.1 ab.2
  let cost := 2 * J * s * nnSum L state ab.1 ab.2
  if cost < 0 then flipAt L state ab.1 ab.2
  else if r ≤ Real.exp ((-(cost / T) : ℚ) : ℝ) then flipAt L state ab.1 ab.2
  else state

/-- Runs `k` further claim-side trials starting at trial number `t`. -/
noncomputable def claimSweepAux (L : ℕ) [NeZero L] (T J : ℚ)
    (sites : ℕ → Fin L × Fin L) (unif : ℕ → ℝ) :
    ℕ → ℕ → SpinState L → SpinState L
  | 0, _, st => st
  | Nat.succ k, t, st =>
      claimSweepAux L T J sites unif k (t + 1) (claimTrial L T J (sites t) (unif t) st)

/-- One sweep written from the words of the claim: exactly `N` single-site
trials, each picking its site from the stream. -/
noncomputable def claimSweep (L : ℕ) [NeZero L] (T J : ℚ) (N : ℕ)
    (sites : ℕ → Fin L × Fin L) (unif : ℕ → ℝ) (state : SpinState L) :
    SpinState L :=
  claimSweepAux L T J sites unif N 0 state

/-- `IsingModel._get_initial_state` from `src/ising_model.py`:
`2*np.random.randint(2, size=(L, L)) - 1`, the `randint` draws supplied as an
explicit bit stream in numpy's row-major order. -/
def getInitialState (L : ℕ) (bits : ℕ → Fin 2) : SpinState L :=
  fun i j => 2 * ((bits (i.val * L + j.val)).val : ℚ) - 1

/-- The `IsingModel` instance data set up by `IsingModel.__init__` in
`src/ising_model.py` (the constant `_nn` convolution stencil, used only by the
vectorised energy, is omitted). -/
structure IsingModel where
  L : ℕ
  T : ℚ
  J : ℚ
  state : SpinState L

/-- `IsingModel.__init__(L, T, J=1)`: stores `L`, `T`, `J` and sets
`self.state = self._get_initial_state()` — unconditionally random, whatever
`T` and `J` are. -/
def isingModelInit (L : ℕ) (T : ℚ) (J : ℚ) (bits : ℕ → Fin 2) : IsingModel :=
  { L := L, T := T, J := J, state := getInitialState L bits }

/-- Python runtime values that can flow out of the stubbed attribute:
a float (idealised as `ℚ`) or the `None` object. -/
inductive PyVal where
  | float (q : ℚ)
  | pyNone
deriving DecidableEq

/-- The body of the property `IsingModel.magnetization` in
`src/ising_model.py` is the bare `...` literal as an expression statement
(no `return`), so calling the property returns the `None` object. -/
def isingMagnetization : PyVal := PyVal.pyNone

/-- Python exceptions raised by the embedded driver code. -/
inductive PyErr where
  | attributeError
  | typeError
  | zeroDivisionError
deriving DecidableEq

/-- The attribute names defined by `class IsingModel` in
`src/ising_model.py`: instance attributes set in `__init__`, the method
`_get_initial_state`, and the properties. -/
def isingModelAttrs : List String :=
  ["L", "T", "J", "_nn", "state", "_get_initial_state", "total_spins",
   "v_energy", "energy", "magnetization"]

/-- The embedded call `ising.mc_step()` from `simulate` in
`src/simulate.py`: Python first looks `mc_step` up on the object; the class
defines no such attribute, so the lookup raises `AttributeError`. -/
def isingMcStep : Except PyErr Unit :=
  if isingModelAttrs.contains "mc_step" then Except.ok ()
  else Except.error PyErr.attributeError

/-- The sampling statements of the measurement loop in `simulate`
(`src/simulate.py`): read `ising.energy` and `ising.magnetization` and add
them into the four running sums. The `magnetization` property returns the
`None` object (`isingMagnetization`), so folding it into a float sum
would raise `TypeError`; this branch is unreachable because `ising.mc_step()`
raises `AttributeError` first on every iteration. -/
def sampleStep (acc : ℚ × ℚ × ℚ × ℚ) : Except PyErr (ℚ × ℚ × ℚ × ℚ) :=
  match isingMagnetization with
  | PyVal.float _ => Except.ok acc
  | PyVal.pyNone => Except.error PyErr.typeError

/-- The thermalization loop of `simulate`:
`for i in range(thermalize_sweeps): ising.mc_step()`. -/
def runTherm : ℕ → Except PyErr Unit
  | 0 => Except.ok ()
  | Nat.succ n => do
      let _ ← isingMcStep
      runTherm n

/-- The measurement loop of `simulate`, iterating over the remaining indices
`i` of `range(msmt_sweeps)`: each iteration calls `ising.mc_step()` and, when
`i % msmt_rate == 0`, samples into the accumulator. -/
def runMsmt (msmtRate : ℕ) : List ℕ → ℚ × ℚ × ℚ × ℚ → Except PyErr (ℚ × ℚ × ℚ × ℚ)
  | [], acc => Except.ok acc
  | i :: rest, acc => do
      let _ ← isingMcStep
      let acc' ← if i % msmtRate = 0 then sampleStep acc else Except.ok acc
      runMsmt msmtRate rest acc'

/-- `simulate` from `src/simulate.py`: first evaluates
`n_msmts = msmt_sweeps // msmt_rate` — which raises `ZeroDivisionError` at
once when `msmt_rate = 0`, before the model is constructed — then constructs
a fresh `IsingModel`, runs `thermalize_sweeps` sweeps, then `msmt_sweeps`
measurement sweeps sampling every `msmt_rate`-th index, and at the final
`return` divides the four accumulated sums by `n_msmts` (a
`ZeroDivisionError` there when that integer quotient is zero). -/
def simulate (thermalizeSweeps msmtSweeps msmtRate L : ℕ) (T : ℚ)
    (bits : ℕ → Fin 2) : Except PyErr (ℚ × ℚ × ℚ × ℚ) :=
  if msmtRate = 0 then Except.error PyErr.zeroDivisionError
  else
    let nMsmts : ℕ := msmtSweeps / msmtRate
    let _ising := isingModelInit L T 1 bits
    do
      let _ ← runTherm thermalizeSweeps
      let sums ← runMsmt msmtRate (List.range msmtSweeps) (0, 0, 0, 0)
      if nMsmts = 0 then Except.error PyErr.zeroDivisionError
      else
        Except.ok (sums.1 / nMsmts, sums.2.1 / nMsmts, sums.2.2.1 / nMsmts,
                   sums.2.2.2 / nMsmts)

/-- One row of the persisted structured array of `main` in
`src/simulate.py` (dtype fields `E`, `M`, `C`, `Chi`, `T`). -/
structure ResultRecord where
  E : ℚ
  M : ℚ
  C : ℚ
  Chi : ℚ
  T : ℚ
deriving DecidableEq

/-- The observable-table assignment block of `main` in `src/simulate.py`,
per temperature point:
`results[E] = energy`, `results[M] = magnetization`,
`results[C] = (1/(N*k*T**2))*(energy_sq - energy**2)`,
`results[Chi] = (N/(k*T))*(magnetization_sq - magnetization**2)`,
`results[T] = T`. -/
def buildRecord (N k T e e2 m m2 : ℚ) : ResultRecord :=
  { E := e
    M := m
    C := (1 / (N * k * T ^ 2)) * (e2 - e ^ 2)
    Chi := (N / (k * T)) * (m2 - m ^ 2)
    T := T }

/-- The update rule variants of the specification. -/
inductive UpdateAlgorithm where
  | metropolis
deriving DecidableEq

/-- Modelled from the spec: the update-algorithm selector handling at model
construction is missing from `src/` (`IsingModel.__init__` takes no selector
argument); per the specification, an unrecognized update-algorithm selector
falls back to the Metropolis algorithm and emits a diagnostic notice rather
than failing. The returned pair is the chosen algorithm and the optional
diagnostic notice. -/
def selectUpdateAlgorithm (sel : String) : UpdateAlgorithm × Option String :=
  if sel = "metropolis" then (UpdateAlgorithm.metropolis, none)
  else (UpdateAlgorithm.metropolis,
        some "Unrecognized update algorithm, falling back to Metropolis")

/-! ## Helper lemmas -/

lemma ovSum_eq_two_edgeSum (L : ℕ) [NeZero L] (st : SpinState L) :
    ovSum L st = 2 * edgeSum L st := by
  have hvert : ∀ j : Fin L, ∑ i : Fin L, st i j * st (i - 1) j
      = ∑ i : Fin L, st i j * st (i + 1) j := by
    intro j
    have := Fintype.sum_equiv (Equiv.subRight (1 : Fin L))
      (fun i => st i j * st (i - 1) j) (fun i => st (i + 1) j * st i j) ?_
    · rw [this]
      exact Finset.sum_congr rfl (fun i _ => mul_comm _ _)
    · intro i
      simp [Equiv.subRight, sub_add_cancel]
  have hhor : ∀ i : Fin L, ∑ j : Fin L, st i j * st i (j - 1)
      = ∑ j : Fin L, st i j * st i (j + 1) := by
    intro i
    have := Fintype.sum_equiv (Equiv.subRight (1 : Fin L))
      (fun j => st i j * st i (j - 1)) (fun j => st i (j + 1) * st i j) ?_
    · rw [this]
      exact Finset.sum_congr rfl (fun j _ => mul_comm _ _)
    · intro j
      simp [Equiv.subRight, sub_add_cancel]
  have expand : ovSum L st
      = ((∑ i : Fin L, ∑ j : Fin L, st i j * st (i + 1) j)
          + (∑ i : Fin L, ∑ j : Fin L, st i j * st i (j + 1))
          + (∑ i : Fin L, ∑ j : Fin L, st i j * st (i - 1) j))
          + (∑ i : Fin L, ∑ j : Fin L, st i j * st i (j - 1)) := by
    unfold ovSum nnSum
    simp only [mul_add, Finset.sum_add_distrib]
  have edge : edgeSum L st
      = (∑ i : Fin L, ∑ j : Fin L, st i j * st (i + 1) j)
        + (∑ i : Fin L, ∑ j : Fin L, st i j * st i (j + 1)) := by
    unfold edgeSum
    simp only [mul_add, Finset.sum_add_distrib]
  have v : (∑ i : Fin L, ∑ j : Fin L, st i j * st (i - 1) j)
      = ∑ i : Fin L, ∑ j : Fin L, st i j * st (i + 1) j :=
    calc ∑ i : Fin L, ∑ j : Fin L, st i j * st (i - 1) j
        = ∑ j : Fin L, ∑ i : Fin L, st i j * st (i - 1) j := Finset.sum_comm
      _ = ∑ j : Fin L, ∑ i : Fin L, st i j * st (i + 1) j :=
          Finset.sum_congr rfl (fun j _ => hvert j)
      _ = ∑ i : Fin L, ∑ j : Fin L, st i j * st (i + 1) j := Finset.sum_comm
  have h : (∑ i : Fin L, ∑ j : Fin L, st i j * st i (j - 1))
      = ∑ i : Fin L, ∑ j : Fin L, st i j * st i (j + 1) :=
    Finset.sum_congr rfl (fun i _ => hhor i)
  rw [expand, edge, v, h]
  ring

lemma ovSum_eq_pairSums (L : ℕ) [NeZero L] (st : SpinState L) :
    ovSum L st = pairSum L st (1, 0) + pairSum L st (0, 1)
      + pairSum L st (-1, 0) + pairSum L st (0, -1) := by
  unfold ovSum nnSum pairSum
  simp only [Fintype.sum_prod_type, add_zero, mul_add, Finset.sum_add_distrib,
    ← sub_eq_add_neg]

lemma pairSum_flipAt (L : ℕ) [NeZero L] (st : SpinState L) (a b : Fin L)
    (d : Fin L × Fin L) (hd : d ≠ 0) :
    pairSum L (flipAt L st a b) d
      = pairSum L st d - 2 * st a b * st (a + d.1) (b + d.2)
        - 2 * (st (a - d.1) (b - d.2) * st a b) := by
  have hd' : ¬ (d.1 = 0 ∧ d.2 = 0) := by
    intro h
    exact hd (Prod.ext h.1 h.2)
  have hne : ((a, b) : Fin L × Fin L) ≠ (a - d.1, b - d.2) := by
    intro h
    rw [Prod.ext_iff] at h
    refine hd' ⟨?_, ?_⟩
    · have := h.1
      rw [eq_comm, sub_eq_self] at this
      exact this
    · have := h.2
      rw [eq_comm, sub_eq_self] at this
      exact this
  have key : ∀ p : Fin L × Fin L,
      flipAt L st a b p.1 p.2 * flipAt L st a b (p.1 + d.1) (p.2 + d.2)
        = st p.1 p.2 * st (p.1 + d.1) (p.2 + d.2)
          + (if p = (a, b) then -2 * st a b * st (a + d.1) (b + d.2) else 0)
          + (if p = (a - d.1, b - d.2) then
              -2 * (st (a - d.1) (b - d.2) * st a b) else 0) := by
    intro p
    by_cases h1 : p = (a, b)
    · subst h1
      have c1 : flipAt L st a b a b = -(st a b) := by
        simp [flipAt]
      have c2 : flipAt L st a b (a + d.1) (b + d.2) = st (a + d.1) (b + d.2) := by
        unfold flipAt
        rw [if_neg]
        intro h
        exact hd' ⟨self_eq_add_right.mp h.1.symm, self_eq_add_right.mp h.2.symm⟩
      rw [if_pos rfl, if_neg hne]
      simp only [c1, c2]
      ring
    · by_cases h2 : p = (a - d.1, b - d.2)
      · subst h2
        have c1 : flipAt L st a b (a - d.1) (b - d.2) = st (a - d.1) (b - d.2) := by
          unfold flipAt
          rw [if_neg]
          intro h
          exact hne (Prod.ext h.1.symm h.2.symm)
        have c2 : flipAt L st a b ((a - d.1) + d.1) ((b - d.2) + d.2) = -(st a b) := by
          unfold flipAt
          rw [if_pos ⟨sub_add_cancel a d.1, sub_add_cancel b d.2⟩]
        have cab : flipAt L st a b a b = -(st a b) := by
          simp [flipAt]
        rw [if_neg h1, if_pos rfl]
        simp only [c1, c2, cab, sub_add_cancel]
        ring
      · rw [if_neg h1, if_neg h2]
        have e1 : flipAt L st a b p.1 p.2 = st p.1 p.2 := by
          unfold flipAt
          rw [if_neg]
          intro h
          exact h1 (Prod.ext h.1 h.2)
        have e2 : flipAt L st a b (p.1 + d.1) (p.2 + d.2)
            = st (p.1 + d.1) (p.2 + d.2) := by
          unfold flipAt
          rw [if_neg]
          intro h
          exact h2 (Prod.ext (eq_sub_of_add_eq h.1) (eq_sub_of_add_eq h.2))
        rw [e1, e2]
        ring
  calc pairSum L (flipAt L st a b) d
      = ∑ p : Fin L × Fin L, (st p.1 p.2 * st (p.1 + d.1) (p.2 + d.2)
          + (if p = (a, b) then -2 * st a b * st (a + d.1) (b + d.2) else 0)
          + (if p = (a - d.1, b - d.2) then
              -2 * (st (a - d.1) (b - d.2) * st a b) else 0)) :=
        Finset.sum_congr rfl (fun p _ => key p)
    _ = pairSum L st d - 2 * st a b * st (a + d.1) (b + d.2)
        - 2 * (st (a - d.1) (b - d.2) * st a b) := by
        rw [Finset.sum_add_distrib, Finset.sum_add_distrib,
          Finset.sum_ite_eq' Finset.univ ((a, b) : Fin L × Fin L),
          Finset.sum_ite_eq' Finset.univ ((a - d.1, b - d.2) : Fin L × Fin L)]
        simp only [Finset.mem_univ, if_true]
        unfold pairSum
        ring

lemma fin_one_ne_zero (L : ℕ) [NeZero L] (hL : 2 ≤ L) : (1 : Fin L) ≠ 0 := by
  intro h
  have h2 := congrArg Fin.val h
  rw [Fin.val_one', Fin.val_zero, Nat.mod_eq_of_lt hL] at h2
  exact one_ne_zero h2

lemma ovSum_flipAt (L : ℕ) [NeZero L] (hL : 2 ≤ L) (st : SpinState L)
    (a b : Fin L) :
    ovSum L (flipAt L st a b) = ovSum L st - 4 * st a b * nnSum L st a b := by
  have h1 : (1 : Fin L) ≠ 0 := fin_one_ne_zero L hL
  have hn1 : (-1 : Fin L) ≠ 0 := fun h => h1 (neg_eq_zero.mp h)
  have d1 : ((1, 0) : Fin L × Fin L) ≠ 0 := by
    intro h
    exact h1 (congrArg Prod.fst h)
  have d2 : ((0, 1) : Fin L × Fin L) ≠ 0 := by
    intro h
    exact h1 (congrArg Prod.snd h)
  have d3 : ((-1, 0) : Fin L × Fin L) ≠ 0 := by
    intro h
    exact hn1 (congrArg Prod.fst h)
  have d4 : ((0, -1) : Fin L × Fin L) ≠ 0 := by
    intro h
    exact hn1 (congrArg Prod.snd h)
  rw [ovSum_eq_pairSums, ovSum_eq_pairSums,
    pairSum_flipAt L st a b _ d1, pairSum_flipAt L st a b _ d2,
    pairSum_flipAt L st a b _ d3, pairSum_flipAt L st a b _ d4]
  simp only [add_zero, sub_zero, sub_neg_eq_add, ← sub_eq_add_neg]
  unfold nnSum
  ring

lemma energy_flipAt (L : ℕ) [NeZero L] (hL : 2 ≤ L) (st : SpinState L)
    (a b : Fin L) (J : ℚ) :
    energy L (flipAt L st a b) J = energy L st J + J * st a b * nnSum L st a b := by
  unfold energy
  rw [ovSum_flipAt L hL st a b]
  ring

lemma mcTrial_eq_claimTrial (L : ℕ) [NeZero L] (T J : ℚ) (ab : Fin L × Fin L)
    (r : ℝ) (st : SpinState L) :
    mcTrial L T J ab r st = claimTrial L T J ab r st := by
  have harg : ((-(2 * J * st ab.1 ab.2 * nnSum L st ab.1 ab.2) * (1 / T) : ℚ) : ℝ)
      = ((-((2 * J * st ab.1 ab.2 * nnSum L st ab.1 ab.2) / T) : ℚ) : ℝ) := by
    push_cast
    ring
  simp only [mcTrial, claimTrial, harg]

lemma mcTrial_eq_or (L : ℕ) [NeZero L] (T J : ℚ) (ab : Fin L × Fin L)
    (r : ℝ) (st : SpinState L) :
    mcTrial L T J ab r st = flipAt L st ab.1 ab.2 ∨ mcTrial L T J ab r st = st := by
  simp only [mcTrial]
  split_ifs with h1 h2
  · exact Or.inl rfl
  · exact Or.inl rfl
  · exact Or.inr rfl

lemma mcTrial_reject (L : ℕ) [NeZero L] (T J : ℚ) (ab : Fin L × Fin L)
    (r : ℝ) (st : SpinState L)
    (h1 : ¬ 2 * J * st ab.1 ab.2 * nnSum L st ab.1 ab.2 < 0)
    (h2 : ¬ r ≤ Real.exp
        ((-(2 * J * st ab.1 ab.2 * nnSum L st ab.1 ab.2) * (1 / T) : ℚ) : ℝ)) :
    mcTrial L T J ab r st = st := by
  simp only [mcTrial]
  rw [if_neg h1, if_neg h2]

lemma mcSweepAux_eq_claimSweepAux (L : ℕ) [NeZero L] (T J : ℚ)
    (sites : ℕ → Fin L × Fin L) (unif : ℕ → ℝ) :
    ∀ (k t : ℕ) (st : SpinState L),
      mcSweepAux L T J sites unif k t st = claimSweepAux L T J sites unif k t st := by
  intro k
  induction k with
  | zero => intro t st; rfl
  | succ n ih =>
      intro t st
      unfold mcSweepAux claimSweepAux
      rw [mcTrial_eq_claimTrial]
      exact ih _ _

lemma isSpinState_flipAt (L : ℕ) (st : SpinState L) (a b : Fin L)
    (h : IsSpinState L st) : IsSpinState L (flipAt L st a b) := by
  intro i j
  unfold flipAt
  by_cases hc : i = a ∧ j = b
  · rw [if_pos hc]
    rcases h a b with h' | h'
    · right
      rw [h']
    · left
      rw [h']
      ring
  · rw [if_neg hc]
    exact h i j

lemma isSpinState_mcTrial (L : ℕ) [NeZero L] (T J : ℚ) (ab : Fin L × Fin L)
    (r : ℝ) (st : SpinState L) (h : IsSpinState L st) :
    IsSpinState L (mcTrial L T J ab r st) := by
  rcases mcTrial_eq_or L T J ab r st with he | he
  · rw [he]
    exact isSpinState_flipAt L st ab.1 ab.2 h
  · rw [he]
    exact h

lemma isSpinState_mcSweepAux (L : ℕ) [NeZero L] (T J : ℚ)
    (sites : ℕ → Fin L × Fin L) (unif : ℕ → ℝ) :
    ∀ (k t : ℕ) (st : SpinState L), IsSpinState L st →
      IsSpinState L (mcSweepAux L T J sites unif k t st) := by
  intro k
  induction k with
  | zero => intro t st h; exact h
  | succ n ih =>
      intro t st h
      unfold mcSweepAux
      exact ih _ _ (isSpinState_mcTrial L T J (sites t) (unif t) st h)

lemma isSpinState_getInitialState (L : ℕ) (bits : ℕ → Fin 2) :
    IsSpinState L (getInitialState L bits) := by
  intro i j
  unfold getInitialState
  have hlt := (bits (i.val * L + j.val)).isLt
  have h2 : (bits (i.val * L + j.val)).val = 0 ∨ (bits (i.val * L + j.val)).val = 1 := by
    omega
  rcases h2 with h' | h'
  · right
    rw [h']
    norm_num
  · left
    rw [h']
    norm_num

/-! ## Claims -/

/-- C1: one Metropolis sweep performs exactly `N` single-site trials; each
trial picks a site `(a, b)` from the random stream, computes
`cost = 2*J*s*(four-neighbour sum)`, flips unconditionally when `cost < 0`,
otherwise flips exactly when the drawn uniform number `r` satisfies
`r ≤ exp (-cost / T)` (the exponent uses the model's `T`), and leaves the
spin unchanged otherwise: the source sweep coincides with the sweep written
from the claim's words, for every state, streams, `T > 0`, `J` and `N`. -/
theorem metropolis_sweep_matches_claim (L : ℕ) [NeZero L] (T J : ℚ)
    (_hT : 0 < T) (N : ℕ) (sites : ℕ → Fin L × Fin L) (unif : ℕ → ℝ)
    (state : SpinState L) :
    mc_step_metropolis L T J N sites unif state
      = claimSweep L T J N sites unif state :=
  mcSweepAux_eq_claimSweepAux L T J sites unif N 0 state

/-- Witness for C1 at concrete inputs. -/
theorem metropolis_sweep_matches_claim_witness :
    0 < (2 : ℚ) ∧
      mc_step_metropolis 2 2 1 4 (fun _ => (0, 0)) (fun _ => 0) (allUp 2)
        = claimSweep 2 2 1 4 (fun _ => (0, 0)) (fun _ => 0) (allUp 2) :=
  ⟨by norm_num,
    metropolis_sweep_matches_claim 2 2 1 (by norm_num) 4
      (fun _ => (0, 0)) (fun _ => 0) (allUp 2)⟩

/-- C2 counterexample: on the 3×3 all-up state with `J = 1` the energy
function returns `-9`, while `-J` times the each-edge-once sum is `-18`;
the claimed equality with the each-edge-once Hamiltonian fails. -/
theorem energy_not_edge_once_counterexample :
    energy 3 (allUp 3) 1 ≠ -1 * edgeSum 3 (allUp 3) := by
  norm_num [energy, ovSum, nnSum, edgeSum, allUp, Fin.sum_univ_three]

/-- C2 amended: the energy function returns `-J/4` times the overcounting
four-neighbour sum, which equals `-J/2` times (not `-J` times) the
each-edge-once sum. -/
theorem energy_eq_half_edge_once (L : ℕ) [NeZero L] (st : SpinState L) (J : ℚ) :
    energy L st J = -J * (ovSum L st / 4) ∧
      energy L st J = -(J * edgeSum L st) / 2 := by
  refine ⟨rfl, ?_⟩
  unfold energy
  rw [ovSum_eq_two_edgeSum]
  ring

/-- Witness for C2's amended theorem at concrete inputs. -/
theorem energy_eq_half_edge_once_witness :
    energy 2 (allUp 2) 1 = -(1 * edgeSum 2 (allUp 2)) / 2 :=
  (energy_eq_half_edge_once 2 (allUp 2) 1).2

/-- C3: at spec-style positive parameters (10 thermalization sweeps, 30
measurement sweeps, stride 10, L = 3, T = 2) the driver raises
`AttributeError` instead of returning the four averaged samples, because
`IsingModel` defines no `mc_step`. -/
theorem simulate_spec_params_attribute_error :
    simulate 10 30 10 3 2 (fun _ => 0) = Except.error PyErr.attributeError := rfl

/-- C4 counterexample: with `T = 1/2`, `J = 1` the reduced temperature
`T/J = 1/2 < 1`, yet the freshly constructed state (for the bit stream that
draws `0` everywhere) has `-1` at cell `(0, 0)`: it is not the all-up
configuration the claim requires below reduced temperature 1. -/
theorem initial_state_not_all_up_counterexample :
    ((1 : ℚ) / 2) / 1 < 1 ∧
      (isingModelInit 2 (1 / 2) 1 (fun _ => 0)).state ≠ allUp 2 := by
  refine ⟨by norm_num, fun h => ?_⟩
  have h00 := congrFun (congrFun h (0 : Fin 2)) (0 : Fin 2)
  simp [isingModelInit, getInitialState, allUp] at h00
  norm_num at h00

/-- C4 amended: for every `L`, `T`, `J` the freshly constructed lattice state
is the independently random ±1 configuration: it is identical whatever `T`
and `J` are (there is no all-up branch for `T/J < 1`), and every cell holds
±1. -/
theorem initial_state_random_for_all_temperatures (L : ℕ) (T J T' J' : ℚ)
    (bits : ℕ → Fin 2) :
    (isingModelInit L T J bits).state = (isingModelInit L T' J' bits).state ∧
      (isingModelInit L T J bits).state = getInitialState L bits ∧
      IsSpinState L (isingModelInit L T J bits).state :=
  ⟨rfl, rfl, isSpinState_getInitialState L bits⟩

/-- C5: the model's magnetization operation does not return the claimed mean
absolute spin — its body is the bare `...` literal as an expression
statement, so calling the property yields the `None` object and never any
numeric value. -/
theorem magnetization_property_not_numeric (q : ℚ) :
    isingMagnetization ≠ PyVal.float q := by
  simp [isingMagnetization]

/-- C6 counterexample: at L = 3, all-up state, J = 1, site (0, 0): flipping
the spin changes the total energy by `4`, which is `cost/2`, not the computed
`cost = 8` the claim asserts. -/
theorem flip_energy_delta_counterexample :
    energy 3 (flipAt 3 (allUp 3) 0 0) 1
      ≠ energy 3 (allUp 3) 1 + 2 * 1 * allUp 3 0 0 * nnSum 3 (allUp 3) 0 0 := by
  rw [energy_flipAt 3 (by norm_num) (allUp 3) 0 0 1]
  have hnn : nnSum 3 (allUp 3) 0 0 = 4 := by norm_num [nnSum, allUp]
  have hau : allUp 3 0 0 = 1 := rfl
  rw [hnn, hau]
  norm_num

/-- C6 amended: for every lattice of side `L ≥ 2`, state, site `(a, b)` and
coupling `J`: flipping the single spin at `(a, b)` changes the total energy
by exactly `cost / 2` where `cost = 2*J*s*(four-neighbour sum)`; and a
rejected trial (neither acceptance branch taken) leaves the total energy
unchanged. -/
theorem flip_energy_delta_half_cost (L : ℕ) [NeZero L] (hL : 2 ≤ L)
    (st : SpinState L) (a b : Fin L) (J T : ℚ) (r : ℝ) :
    energy L (flipAt L st a b) J
        = energy L st J + (2 * J * st a b * nnSum L st a b) / 2 ∧
      (¬ 2 * J * st a b * nnSum L st a b < 0 →
        ¬ r ≤ Real.exp ((-(2 * J * st a b * nnSum L st a b) * (1 / T) : ℚ) : ℝ) →
        energy L (mcTrial L T J (a, b) r st) J = energy L st J) := by
  constructor
  · rw [energy_flipAt L hL st a b J]
    ring
  · intro h1 h2
    rw [mcTrial_reject L T J (a, b) r st h1 h2]

/-- Witness for C6's amended theorem at concrete inputs. -/
theorem flip_energy_delta_half_cost_witness :
    2 ≤ 3 ∧
      energy 3 (flipAt 3 (allUp 3) 0 0) 1
        = energy 3 (allUp 3) 1 + (2 * 1 * allUp 3 0 0 * nnSum 3 (allUp 3) 0 0) / 2 ∧
      energy 3 (mcTrial 3 1 1 (0, 0) 1 (allUp 3)) 1 = energy 3 (allUp 3) 1 := by
  have h1 : ¬ 2 * 1 * allUp 3 0 0 * nnSum 3 (allUp 3) 0 0 < 0 := by
    norm_num [allUp, nnSum]
  have h2 : ¬ (1 : ℝ) ≤ Real.exp
      ((-(2 * 1 * allUp 3 0 0 * nnSum 3 (allUp 3) 0 0) * (1 / 1) : ℚ) : ℝ) := by
    have harg : ((-(2 * 1 * allUp 3 0 0 * nnSum 3 (allUp 3) 0 0) * (1 / 1) : ℚ) : ℝ)
        = (-8 : ℝ) := by
      norm_num [allUp, nnSum]
    rw [harg]
    have := Real.exp_lt_one_iff.mpr (show (-8 : ℝ) < 0 by norm_num)
    linarith
  exact ⟨by norm_num,
    (flip_energy_delta_half_cost 3 (by norm_num) (allUp 3) 0 0 1 1 1).1,
    (flip_energy_delta_half_cost 3 (by norm_num) (allUp 3) 0 0 1 1 1).2 h1 h2⟩

/-- C7: the lattice of side `L` has exactly `N = L²` cells; the initializer
produces only ±1 cells; each single trial leaves every cell either unchanged
or negated; and a full Metropolis sweep preserves the ±1 invariant, so every
intermediate state of a run is a ±1 configuration. -/
theorem lattice_spin_invariant (L : ℕ) [NeZero L] :
    Fintype.card (Fin L × Fin L) = L ^ 2 ∧
      (∀ bits : ℕ → Fin 2, IsSpinState L (getInitialState L bits)) ∧
      (∀ (T J : ℚ) (ab : Fin L × Fin L) (r : ℝ) (st : SpinState L) (i j : Fin L),
        mcTrial L T J ab r st i j = st i j ∨ mcTrial L T J ab r st i j = -(st i j)) ∧
      (∀ (T J : ℚ) (N : ℕ) (sites : ℕ → Fin L × Fin L) (unif : ℕ → ℝ)
          (st : SpinState L), IsSpinState L st →
        IsSpinState L (mc_step_metropolis L T J N sites unif st)) := by
  refine ⟨?_, fun bits => isSpinState_getInitialState L bits, ?_, ?_⟩
  · rw [Fintype.card_prod, Fintype.card_fin, sq]
  · intro T J ab r st i j
    rcases mcTrial_eq_or L T J ab r st with he | he
    · rw [he]
      unfold flipAt
      by_cases hc : i = ab.1 ∧ j = ab.2
      · right
        rw [if_pos hc, hc.1, hc.2]
      · left
        rw [if_neg hc]
    · rw [he]
      left
      rfl
  · intro T J N sites unif st h
    exact isSpinState_mcSweepAux L T J sites unif N 0 st h

/-- Witness for C7 at concrete inputs. -/
theorem lattice_spin_invariant_witness :
    IsSpinState 1 (allUp 1) ∧
      IsSpinState 1
        (mc_step_metropolis 1 2 1 1 (fun _ => (0, 0)) (fun _ => 0) (allUp 1)) :=
  ⟨by decide,
    (lattice_spin_invariant 1).2.2.2 2 1 1 (fun _ => (0, 0)) (fun _ => 0)
      (allUp 1) (by decide)⟩

/-- C8: with Boltzmann constant `k`, the Observable Table Builder computes
heat capacity `C = (⟨E²⟩ − ⟨E⟩²)/(N·k·T²)`, susceptibility
`χ = N·(⟨M²⟩ − ⟨M⟩²)/(k·T)`, and stores the temperature itself in the `T`
field of the record. -/
theorem observable_builder_formulas (N k T e e2 m m2 : ℚ) :
    (buildRecord N k T e e2 m m2).C = (e2 - e ^ 2) / (N * k * T ^ 2) ∧
      (buildRecord N k T e e2 m m2).Chi = N * (m2 - m ^ 2) / (k * T) ∧
      (buildRecord N k T e e2 m m2).T = T := by
  refine ⟨?_, ?_, rfl⟩
  · unfold buildRecord
    ring
  · unfold buildRecord
    ring

/-- C9: an unrecognized update-algorithm selector does not fail: the chosen
algorithm falls back to Metropolis and a diagnostic notice is emitted, while
the recognized selector emits none. -/
theorem unrecognized_selector_falls_back (sel : String)
    (h : sel ≠ "metropolis") :
    (selectUpdateAlgorithm sel).1 = UpdateAlgorithm.metropolis ∧
      (selectUpdateAlgorithm sel).2.isSome = true ∧
      (selectUpdateAlgorithm "metropolis").2 = none := by
  unfold selectUpdateAlgorithm
  rw [if_neg h, if_pos rfl]
  exact ⟨rfl, rfl, rfl⟩

/-- Witness for C9 at a concrete unrecognized selector. -/
theorem unrecognized_selector_falls_back_witness :
    "wolff" ≠ "metropolis" ∧
      (selectUpdateAlgorithm "wolff").1 = UpdateAlgorithm.metropolis ∧
      (selectUpdateAlgorithm "wolff").2.isSome = true ∧
      (selectUpdateAlgorithm "metropolis").2 = none :=
  ⟨by decide, unrecognized_selector_falls_back "wolff" (by decide)⟩

/-- C10 counterexample: at `thermalize_sweeps = 1` (so the claim's premise
holds) but `msmt_rate = 0`, the source raises `ZeroDivisionError` at
`n_msmts = msmt_sweeps // msmt_rate` before any `mc_step` call, not the
claimed `AttributeError`. -/
theorem simulate_rate_zero_counterexample :
    1 ≤ 1 ∧
      simulate 1 0 0 1 2 (fun _ => 0) = Except.error PyErr.zeroDivisionError ∧
      simulate 1 0 0 1 2 (fun _ => 0) ≠ Except.error PyErr.attributeError := by
  refine ⟨le_refl 1, rfl, fun h => ?_⟩
  rw [show simulate 1 0 0 1 2 (fun _ => 0) = Except.error PyErr.zeroDivisionError
    from rfl] at h
  exact PyErr.noConfusion (Except.error.inj h)

/-- C10 amended: for every parameter combination with `msmt_rate ≥ 1` and at
least one thermalization sweep or at least one measurement sweep, `simulate`
raises `AttributeError` and returns no result, because `IsingModel` defines
no `mc_step` method (at `msmt_rate = 0` it raises `ZeroDivisionError`
first instead). -/
theorem simulate_attribute_error_pos_rate (t m r L : ℕ) (T : ℚ)
    (bits : ℕ → Fin 2) (hr : 1 ≤ r) (h : 1 ≤ t ∨ 1 ≤ m) :
    simulate t m r L T bits = Except.error PyErr.attributeError := by
  obtain ⟨q, rfl⟩ : ∃ q, r = q + 1 := ⟨r - 1, by omega⟩
  cases t with
  | succ n => rfl
  | zero =>
      have hm : 1 ≤ m := by
        rcases h with h | h
        · omega
        · exact h
      obtain ⟨k, rfl⟩ : ∃ k, m = k + 1 := ⟨m - 1, by omega⟩
      unfold simulate
      rw [List.range_succ_eq_map]
      rfl

/-- Witness for C10's amended theorem at concrete inputs. -/
theorem simulate_attribute_error_pos_rate_witness :
    1 ≤ 1 ∧ (1 ≤ 1 ∨ 1 ≤ 0) ∧
      simulate 1 0 1 1 2 (fun _ => 0) = Except.error PyErr.attributeError :=
  ⟨le_refl 1, Or.inl (by norm_num),
    simulate_attribute_error_pos_rate 1 0 1 1 2 (fun _ => 0) (by norm_num)
      (Or.inl (by norm_num))⟩

end Ising
